import Mathlib

/-!
Verification of the path-query accessor `SmartDict` (src/smart_dict.py).

The embedding below models Python values as pure trees (`Value`), the
exceptions raised by the code (`PyErr`), and the two access methods
`SmartDict.get` / `SmartDict.set` as `sdGet` / `sdSet`, built from the same
building blocks as the source: `__split_key_selectors` (`parsePath`),
`__access` (`access`), single-level subscription (`getitem`), and the two
external collaborators `pyutils.atomic.to_int` (`parseIntChars`) and
`pyutils.collection.index_of` (`indexOfE`).

A second, heap-flavoured model (`HVal`) tracks object identities so that the
deep-copy/aliasing claims about `copy.deepcopy` can be stated and proved.
-/

namespace SmartDict

/-- Python values reachable by the resolver: `None`, ints, strings, lists,
tuples and string-keyed dicts (the JSON-like shapes of the spec). -/
inductive Value where
  | vnone : Value
  | vint (n : Int) : Value
  | vstr (s : String) : Value
  | vlist (xs : List Value) : Value
  | vtuple (xs : List Value) : Value
  | vdict (es : List (String × Value)) : Value

/-- The exceptions the source raises or catches: `KeyError`, `IndexError`,
`TypeError` (caught by `__access`) and `ValueError` (never caught). -/
inductive PyErr where
  | keyError (msg : String) : PyErr
  | indexError (msg : String) : PyErr
  | typeError (msg : String) : PyErr
  | valueError (msg : String) : PyErr
deriving DecidableEq

/-- A key as it reaches `collection[key]`: a string, an int (after index
coercion), or `None` (after a failed `to_int` coercion). -/
inductive PyKey where
  | kstr (s : String) : PyKey
  | kint (n : Int) : PyKey
  | knone : PyKey
deriving DecidableEq

/-- A selector value: `to_int`-coerced to an int when numeric, else kept a
string (lines 453-456 of the source). -/
inductive SelVal where
  | sInt (n : Int) : SelVal
  | sStr (s : String) : SelVal
deriving DecidableEq

/-- A dictionary selector: ordered field-to-value equality constraints. -/
abbrev Pattern := List (String × SelVal)

/-- First-match association lookup, as Python dict lookup on our ordered
entry lists (entries are kept first-occurrence unique by `insertReplace`). -/
def lookupAssoc {α : Type} : List (String × α) → String → Option α
  | [], _ => none
  | (k, v) :: rest, s => if k = s then some v else lookupAssoc rest s

/-- Python `d[k] = v` on an ordered dict: replace the value of the first
binding of `k`, else append a new binding at the end. -/
def insertReplace {α : Type} : List (String × α) → String → α → List (String × α)
  | [], s, v => [(s, v)]
  | (k, w) :: rest, s, v =>
    if k = s then (k, v) :: rest else (k, w) :: insertReplace rest s v

/-- Digits of a base-10 numeral; `none` when empty or a non-digit occurs. -/
def digitsVal : List Char → Option Nat
  | [] => none
  | [c] => if c.isDigit then some (c.toNat - 48) else none
  | c :: rest =>
    if c.isDigit then
      match digitsVal rest with
      | some n => some ((c.toNat - 48) * 10 ^ rest.length + n)
      | none => none
    else none

/-- Modelled from the spec: `pyutils.atomic.to_int` is an external
collaborator whose source is not in the repository. Spec section 6: accept
signed base-10 integer strings and reject anything else. -/
def parseIntChars : List Char → Option Int
  | [] => none
  | c :: rest =>
    if c = '-' then (digitsVal rest).map (fun n => -(n : Int))
    else if c = '+' then (digitsVal rest).map (fun n => (n : Int))
    else (digitsVal (c :: rest)).map (fun n => (n : Int))

/-- `to_int` applied to whatever the resolver holds as a key: ints pass
through unchanged, strings are parsed, `None` stays `None`. -/
def toIntKey : PyKey → PyKey
  | .kint n => .kint n
  | .kstr s =>
    match parseIntChars s.toList with
    | some n => .kint n
    | none => .knone
  | .knone => .knone

/-- `isinstance(value, list) or isinstance(value, tuple)` (lines 345, 387). -/
def isSeq : Value → Bool
  | .vlist _ => true
  | .vtuple _ => true
  | _ => false

/-- The index-coercion step of the resolver (lines 345-346, 387-388): when
the current value is a sequence, coerce the key with `to_int`. -/
def coerceIfSeq (v : Value) (k : PyKey) : PyKey :=
  if isSeq v then toIntKey k else k

/-- Python index normalization: a negative index counts from the end. -/
def pyIdx (len : Nat) (n : Int) : Int :=
  if n < 0 then n + (len : Int) else n

/-- Python sequence subscription with negative-index support. -/
def seqGet (xs : List Value) (n : Int) : Except PyErr Value :=
  if 0 ≤ pyIdx xs.length n ∧ pyIdx xs.length n < (xs.length : Int) then
    match xs.get? (pyIdx xs.length n).toNat with
    | some v => .ok v
    | none => .error (.indexError "list index out of range")
  else .error (.indexError "list index out of range")

/-- Python string subscription (returns a one-character string). -/
def strGet (s : String) (n : Int) : Except PyErr Value :=
  let cs := s.toList
  if 0 ≤ pyIdx cs.length n ∧ pyIdx cs.length n < (cs.length : Int) then
    match cs.get? (pyIdx cs.length n).toNat with
    | some c => .ok (.vstr (String.mk [c]))
    | none => .error (.indexError "string index out of range")
  else .error (.indexError "string index out of range")

/-- `collection[key]` (line 504): plain Python subscription, raising
`KeyError`, `IndexError` or `TypeError` on failure. -/
def getitem (c : Value) (k : PyKey) : Except PyErr Value :=
  match c, k with
  | .vdict es, .kstr s =>
    match lookupAssoc es s with
    | some v => .ok v
    | none => .error (.keyError s)
  | .vdict _, .kint _ => .error (.keyError "int key absent")
  | .vdict _, .knone => .error (.keyError "None")
  | .vlist xs, .kint n => seqGet xs n
  | .vlist _, _ => .error (.typeError "list indices must be integers")
  | .vtuple xs, .kint n => seqGet xs n
  | .vtuple _, _ => .error (.typeError "tuple indices must be integers")
  | .vstr s, .kint n => strGet s n
  | .vstr _, _ => .error (.typeError "string indices must be integers")
  | .vnone, _ => .error (.typeError "NoneType is not subscriptable")
  | .vint _, _ => .error (.typeError "int is not subscriptable")

/-- `SmartDict.__access` (lines 463-509). The caller-supplied default is an
`Option`: `none` models the `__NoDefault` sentinel. `getitem` only produces
the three exception kinds the `try` catches, so the `except` clause always
applies: with a default, return it; with no default, re-raise when
`raise_none` is set, else return `None`. -/
def access (c : Value) (k : PyKey) (rn : Bool) (dflt : Option Value) :
    Except PyErr Value :=
  match getitem c k with
  | .ok v => .ok v
  | .error e =>
    match dflt with
    | some d => .ok d
    | none => if rn then .error e else .ok .vnone

/-- Python equality between a candidate field value and a selector value. -/
def valEqSel (v : Value) (sv : SelVal) : Bool :=
  match v, sv with
  | .vint n, .sInt m => n = m
  | .vstr s, .sStr t => s = t
  | _, _ => false

/-- An element matches a selector when every field constraint holds; a
non-dict element, or a missing field, is a non-match (spec section 9). -/
def matchesPat (el : Value) (pat : Pattern) : Bool :=
  pat.all fun p =>
    match el with
    | .vdict es =>
      match lookupAssoc es p.1 with
      | some w => valEqSel w p.2
      | none => false
    | _ => false

/-- First matching index, or -1. -/
def findIdxOr (xs : List Value) (pat : Pattern) : Int :=
  match xs.findIdx? (fun el => matchesPat el pat) with
  | some i => (i : Int)
  | none => -1

/-- Modelled from the spec: `pyutils.collection.index_of` is an external
collaborator whose source is not in the repository. Spec section 6: scan the
sequence in order and return the first index whose element matches every
entry of the predicate, else -1. Iterating a dict yields its string keys and
iterating a string yields characters, neither of which carries fields, so
both scans yield -1; iterating a non-iterable raises `TypeError` as Python
`enumerate` would. -/
def indexOfE (c : Value) (pat : Pattern) : Except PyErr Int :=
  match c with
  | .vlist xs => .ok (findIdxOr xs pat)
  | .vtuple xs => .ok (findIdxOr xs pat)
  | .vdict _ => .ok (-1)
  | .vstr _ => .ok (-1)
  | .vnone => .error (.typeError "NoneType is not iterable")
  | .vint _ => .error (.typeError "int is not iterable")

/-- Python `str.split(d)` for a one-character separator: never empty, keeps
empty chunks. -/
def splitChar (d : Char) : List Char → List (List Char)
  | [] => [[]]
  | c :: cs =>
    if c = d then [] :: splitChar d cs
    else
      match splitChar d cs with
      | [] => [[c]]
      | h :: t => (c :: h) :: t

/-- One-pass scan of `re.finditer` for the non-greedy brace groups of line
445: outside a group (`inside = none`) an opening brace starts a group;
inside one (`inside = some acc`) the nearest closing brace ends it and any
other character, a second opening brace included, is part of its text. An
unterminated group matches nothing. -/
def findGroupsAux (inside : Option (List Char)) : List Char → List (List Char)
  | [] => []
  | c :: cs =>
    match inside with
    | none =>
      if c = '{' then findGroupsAux (some []) cs else findGroupsAux none cs
    | some acc =>
      if c = '}' then acc :: findGroupsAux none cs
      else findGroupsAux (some (acc ++ [c])) cs

/-- The brace groups of a path, in left-to-right discovery order. -/
def findGroups (cs : List Char) : List (List Char) :=
  findGroupsAux none cs

/-- `str.replace(old, new, 1)`: first occurrence only (line 457). -/
def replaceFirst : List Char → List Char → List Char → List Char
  | [], _, _ => []
  | c :: cs, pat, rep =>
    if pat.isPrefixOf (c :: cs) then rep ++ (c :: cs).drop pat.length
    else c :: replaceFirst cs pat rep

/-- Substitute each discovered selector group with its 0-based discovery
index, first occurrence only, in discovery order (line 457). -/
def substGroups (i : Nat) (cs : List Char) : List (List Char) → List Char
  | [] => cs
  | g :: rest =>
    substGroups (i + 1)
      (replaceFirst cs ('{' :: g ++ ['}']) ('{' :: (Nat.repr i).toList ++ ['}']))
      rest

/-- Parse one `field:value` clause: `selector.split(":")` must unpack into
exactly two parts or Python raises `ValueError`; the value is `to_int`
coerced when numeric (lines 452-456). -/
def parseClause (cl : List Char) : Except PyErr (String × SelVal) :=
  match splitChar ':' cl with
  | [k, v] =>
    .ok (String.mk k,
      match parseIntChars v with
      | some n => .sInt n
      | none => .sStr (String.mk v))
  | _ => .error (.valueError "not exactly two values to unpack")

/-- Parse a whole brace group into a selector dict (lines 449-456). -/
def parseGroup (content : List Char) : Except PyErr Pattern :=
  (splitChar ',' content).foldlM
    (fun acc cl => do
      let p ← parseClause cl
      return insertReplace acc p.1 p.2)
    []

/-- `SmartDict.__split_key_selectors` composed with the nested-delimiter
split (lines 325-326, 373-374, 423-461): extract the selector dicts, rewrite
each group to an index placeholder, then split into steps. -/
def parsePath (key : String) (nd : Char) :
    Except PyErr (List (List Char) × List Pattern) := do
  let cs := key.toList
  let groups := findGroups cs
  let pats ← groups.mapM parseGroup
  return (splitChar nd (substGroups 0 cs groups), pats)

/-- `re.match` of the placeholder regex (lines 329, 378): the step must
start with an opening brace, a single digit and a closing brace; anything
after the prefix is ignored by `re.match`. -/
def phIdx : List Char → Option Nat
  | a :: b :: c :: _ =>
    if a = '{' ∧ b.isDigit ∧ c = '}' then some (b.toNat - 48) else none
  | _ => none

/-- Sequential per-subkey access of a fan-out step (line 343): the tuple
generator evaluates left to right and the first raise propagates. -/
def accessMany (v : Value) (rn : Bool) (dflt : Option Value) :
    List (List Char) → Except PyErr (List Value)
  | [] => .ok []
  | sk :: rest => do
    let r ← access v (.kstr (String.mk sk)) rn dflt
    let rs ← accessMany v rn dflt rest
    return r :: rs

/-- The step loop of `SmartDict.get` (lines 328-350). Per step: a selector
placeholder resolves through `index_of` (a miss returns `None` when
`raise_none` is set, else raises `KeyError` - exactly the source's branch);
otherwise a step containing the many-keys delimiter is a fan-out, final-only;
otherwise the key is index-coerced on sequences and accessed. -/
def getCore (sels : List Pattern) (rn : Bool) (md : Char) (dflt : Option Value) :
    List (List Char) → Value → Except PyErr Value
  | [], value => .ok value
  | key :: rest, value =>
    match phIdx key with
    | some i =>
      match sels[i]? with
      | none => .error (.indexError "list index out of range")
      | some pat =>
        match indexOfE value pat with
        | .error e => .error e
        | .ok idx =>
          if idx = -1 then
            if rn then .ok .vnone
            else .error (.keyError "No match for pattern")
          else
            match access value (coerceIfSeq value (.kint idx)) rn dflt with
            | .error e => .error e
            | .ok v => getCore sels rn md dflt rest v
    | none =>
      if md ∈ key then
        if rest.isEmpty then
          match accessMany value rn dflt (splitChar md key) with
          | .error e => .error e
          | .ok rs => .ok (.vtuple rs)
        else .error (.keyError "Found a many-keys delimiter before end level.")
      else
        match access value (coerceIfSeq value (.kstr (String.mk key))) rn dflt with
        | .error e => .error e
        | .ok v => getCore sels rn md dflt rest v

/-- `SmartDict.get` (lines 291-350). `asCopy` selects `copy.deepcopy` of the
stored dict as the initial working value; a deep copy is the structural
identity in this pure value model, so the parameter does not change the
result (aliasing is treated in the heap model below). No key returns the
whole container. -/
def sdGet (store : Value) (asCopy rn : Bool) (nd md : Char)
    (key? : Option String) (dflt : Option Value) : Except PyErr Value :=
  match key? with
  | none => .ok store
  | some key =>
    match parsePath key nd with
    | .error e => .error e
    | .ok (steps, sels) => getCore sels rn md dflt steps store

/-- `pointer[last_key] = value` (lines 400, 402): the last key is used as a
string, with no index coercion; only dict pointers accept it. -/
def setItem (ptr : Value) (k : String) (v : Value) : Except PyErr Value :=
  match ptr with
  | .vdict es => .ok (.vdict (insertReplace es k v))
  | .vlist _ => .error (.typeError "list indices must be integers")
  | .vtuple _ => .error (.typeError "tuple does not support item assignment")
  | .vstr _ => .error (.typeError "str does not support item assignment")
  | .vnone => .error (.typeError "NoneType does not support item assignment")
  | .vint _ => .error (.typeError "int does not support item assignment")

/-- Rebuild a container after its child at `pk` was mutated in place; only
defined meaningfully where `getitem` succeeded on a mutable container. -/
def updateItem (ptr : Value) (pk : PyKey) (child : Value) : Value :=
  match ptr, pk with
  | .vdict es, .kstr s => .vdict (insertReplace es s child)
  | .vlist xs, .kint n => .vlist (xs.set (pyIdx xs.length n).toNat child)
  | .vtuple xs, .kint n => .vtuple (xs.set (pyIdx xs.length n).toNat child)
  | _, _ => ptr

/-- Sequential fan-out assignment (lines 399-400): `pointer[subkey] = value[i]`
in subkey order, first failure propagating. -/
def setPairs (ptr : Value) : List (List Char × Value) → Except PyErr Value
  | [] => .ok ptr
  | (sk, x) :: rest =>
    match setItem ptr (String.mk sk) x with
    | .error e => .error e
    | .ok ptr' => setPairs ptr' rest

/-- Final fan-out step of `set` (lines 392-400): the value must be a list or
tuple (else `TypeError`), the arity must match (else `ValueError`, checked
before any write), then assign pairwise. -/
def setFan (ptr : Value) (sks : List (List Char)) (v : Value) :
    Except PyErr (Option Value) :=
  match v with
  | .vlist xs =>
    if sks.length ≠ xs.length then
      .error (.valueError "Not same number of same-level keys and values.")
    else (setPairs ptr (sks.zip xs)).map some
  | .vtuple xs =>
    if sks.length ≠ xs.length then
      .error (.valueError "Not same number of same-level keys and values.")
    else (setPairs ptr (sks.zip xs)).map some
  | _ => .error (.typeError "Found a many-keys delimiter with a not iterable value.")

/-- Resolution of one pointer-walk step of `set` to a concrete key (lines
378-388): a selector placeholder goes through `index_of` - a miss is the
source's early `return None` when `raise_none` is truthy (`.ok none`), else
a raised `KeyError`; any other step is index-coerced on sequences. The walk
has no fan-out check. -/
def setResolveKey (sels : List Pattern) (rn : Bool) (ptr : Value)
    (key : List Char) : Except PyErr (Option PyKey) :=
  match phIdx key with
  | some i =>
    match sels[i]? with
    | none => .error (.indexError "list index out of range")
    | some pat =>
      match indexOfE ptr pat with
      | .error e => .error e
      | .ok idx =>
        if idx = -1 then
          if rn then .ok none
          else .error (.keyError "No match for pattern")
        else .ok (some (coerceIfSeq ptr (.kint idx)))
  | none => .ok (some (coerceIfSeq ptr (.kstr (String.mk key))))

/-- The walk-and-assign of `SmartDict.set` (lines 375-402) as a functional
update. `.ok (some ptr')` is the updated subtree, `.ok none` the early
`return None` of a selector miss under truthy `raise_none` (no write),
`.error` an uncaught exception (no write). Each walk step is `__access` with
no default (line 389), so a failure re-raises when `raise_none` is truthy
and otherwise turns the pointer into `None`, on which the loop continues; a
write that lands on such a detached `None` cannot affect the stored tree. -/
def setCore (sels : List Pattern) (rn : Bool) (md : Char) (v : Value) :
    List (List Char) → Value → Except PyErr (Option Value)
  | [], _ => .error (.valueError "empty key list")
  | [last], ptr =>
    if md ∈ last then setFan ptr (splitChar md last) v
    else (setItem ptr (String.mk last) v).map some
  | key :: next :: rest, ptr =>
    match setResolveKey sels rn ptr key with
    | .error e => .error e
    | .ok none => .ok none
    | .ok (some pk) =>
      match getitem ptr pk with
      | .ok child =>
        match setCore sels rn md v (next :: rest) child with
        | .error e => .error e
        | .ok none => .ok none
        | .ok (some child') => .ok (some (updateItem ptr pk child'))
      | .error e =>
        if rn then .error e
        else
          match setCore sels rn md v (next :: rest) .vnone with
          | .error e' => .error e'
          | .ok none => .ok none
          | .ok (some _) => .ok (some ptr)

/-- `SmartDict.set` (lines 352-402): parse, walk, assign. Returns the
outcome together with the stored container afterwards; the container is
returned unchanged when the call raises or hits the selector-miss early
return. The copy policy of the written value is the structural identity
here; its aliasing consequences are treated by `setEffectiveCopy` and the
heap model. -/
def sdSet (store : Value) (rn : Bool) (nd md : Char)
    (key : String) (v : Value) : Except PyErr Unit × Value :=
  match parsePath key nd with
  | .error e => (.error e, store)
  | .ok (steps, sels) =>
    match setCore sels rn md v steps store with
    | .error e => (.error e, store)
    | .ok none => (.ok (), store)
    | .ok (some store') => (.ok (), store')

/-- `SmartDict.__copy` line 420: `as_copy = as_copy or self.__as_copy`. -/
def copyDecision (asCopy stored : Bool) : Bool := asCopy || stored

/-- Whether `set` deep-copies the incoming value before storing: the
per-call option (line 368 `kwargs.pop` defaulting to the stored option) is
then passed through `__copy`'s `or`-defaulting (line 420). -/
def setEffectiveCopy (perCall : Option Bool) (stored : Bool) : Bool :=
  copyDecision (perCall.getD stored) stored

/-- The pointer-walk of a `set` call (all steps but the last, lines 377-389)
hits a resolution failure somewhere: a selector that cannot be resolved or a
single-level access that raises. Mirrors the walk of `setCore` step for
step. -/
def walkFails (sels : List Pattern) (rn : Bool) : List (List Char) → Value → Bool
  | [], _ => false
  | [_], _ => false
  | key :: next :: rest, ptr =>
    match setResolveKey sels rn ptr key with
    | .error _ => true
    | .ok none => true
    | .ok (some pk) =>
      match getitem ptr pk with
      | .error _ => true
      | .ok child => walkFails sels rn (next :: rest) child

/-- The container kind of a mutable heap node. -/
inductive NodeKind where
  | nlist : NodeKind
  | ntuple : NodeKind
  | ndict : NodeKind
deriving DecidableEq

/-- Heap-flavoured Python values: scalars are immutable, while every list,
tuple or dict node carries the identity of the backing object, so that
`copy.deepcopy` (fresh identities) and in-place mutation (through an
identity) can be spoken about. A shared object appears as repeated
identity. List and tuple children carry an unused placeholder key so all
three node kinds share one child-list shape. -/
inductive HVal where
  | hnone : HVal
  | hint (n : Int) : HVal
  | hstr (s : String) : HVal
  | hnode (id : Nat) (k : NodeKind) (cs : List (String × HVal)) : HVal

mutual

/-- Forget identities: the pure value a heap value denotes. -/
def erase : HVal → Value
  | .hnone => .vnone
  | .hint n => .vint n
  | .hstr s => .vstr s
  | .hnode _ .nlist cs => .vlist (eraseChildren cs)
  | .hnode _ .ntuple cs => .vtuple (eraseChildren cs)
  | .hnode _ .ndict cs => .vdict (eraseEntries cs)

/-- Children of a sequence node, identities forgotten. -/
def eraseChildren : List (String × HVal) → List Value
  | [] => []
  | (_, h) :: rest => erase h :: eraseChildren rest

/-- Entries of a dict node, identities forgotten. -/
def eraseEntries : List (String × HVal) → List (String × Value)
  | [] => []
  | (s, h) :: rest => (s, erase h) :: eraseEntries rest

end

mutual

/-- All object identities reachable from a heap value. -/
def hids : HVal → List Nat
  | .hnone => []
  | .hint _ => []
  | .hstr _ => []
  | .hnode i _ cs => i :: hidsL cs

/-- All object identities reachable from a child list. -/
def hidsL : List (String × HVal) → List Nat
  | [] => []
  | (_, h) :: rest => hids h ++ hidsL rest

end

mutual

/-- `copy.deepcopy` with an allocation counter: every node of the copy gets
a fresh identity taken from the counter upward, scalars are shared (they
are immutable). Returns the copy and the next free identity. -/
def dcopy (n : Nat) : HVal → HVal × Nat
  | .hnone => (.hnone, n)
  | .hint m => (.hint m, n)
  | .hstr s => (.hstr s, n)
  | .hnode _ k cs =>
    let p := dcopyL (n + 1) cs
    (.hnode n k p.1, p.2)

/-- Deep copy of a child list, threading the allocation counter. -/
def dcopyL (n : Nat) : List (String × HVal) → List (String × HVal) × Nat
  | [] => ([], n)
  | (s, h) :: rest =>
    let p := dcopy n h
    let q := dcopyL p.2 rest
    ((s, p.1) :: q.1, q.2)

end

mutual

/-- In-place mutation of the object with identity `t`: its child list is
rewritten by `f` (any `x[k] = w`, deletion or append is such a rewrite);
every occurrence of the identity - that is, every alias - sees the change,
and no other object does. -/
def mutAt (t : Nat) (f : List (String × HVal) → List (String × HVal)) :
    HVal → HVal
  | .hnone => .hnone
  | .hint n => .hint n
  | .hstr s => .hstr s
  | .hnode i k cs =>
    let cs' := mutAtL t f cs
    .hnode i k (if i = t then f cs' else cs')

/-- Mutation mapped over a child list. -/
def mutAtL (t : Nat) (f : List (String × HVal) → List (String × HVal)) :
    List (String × HVal) → List (String × HVal)
  | [] => []
  | (s, h) :: rest => (s, mutAt t f h) :: mutAtL t f rest

end

/-- The largest identity in use (0 when none). -/
def maxId (h : HVal) : Nat := (hids h).foldr max 0

/-- Heap-level trace of `get(k)` for a single plain present key with the
copy option on (lines 316-348 of the source): the working value is
`copy.deepcopy` of the stored dict (line 321), allocated above every stored
identity, and the single plain step is a dict lookup on it (line 504). -/
def getCopyPlain (S : HVal) (k : String) : Option HVal :=
  match (dcopy (maxId S + 1) S).1 with
  | .hnode _ _ cs => lookupAssoc cs k
  | _ => none

/-- Structural induction for heap values, recursing through child lists. -/
def hval_ind (P : HVal → Prop)
    (h0 : P .hnone) (h1 : ∀ n, P (.hint n)) (h2 : ∀ s, P (.hstr s))
    (h3 : ∀ i k cs, (∀ p ∈ cs, P p.2) → P (.hnode i k cs)) :
    ∀ h, P h
  | .hnone => h0
  | .hint n => h1 n
  | .hstr s => h2 s
  | .hnode i k cs =>
    h3 i k cs (fun p hp => hval_ind P h0 h1 h2 h3 p.2)
termination_by h => sizeOf h
decreasing_by
  have hlt := List.sizeOf_lt_of_mem hp
  cases p
  simp only [Prod.mk.sizeOf_spec] at hlt
  simp only [HVal.hnode.sizeOf_spec]
  omega

/-! ## Helper lemmas -/

theorem splitChar_ne_nil (d : Char) : ∀ cs : List Char, splitChar d cs ≠ [] := by
  intro cs
  induction cs with
  | nil => simp [splitChar]
  | cons c cs ih =>
    by_cases hc : c = d
    · simp [splitChar, hc]
    · simp only [splitChar, hc, if_false]
      cases h : splitChar d cs with
      | nil => exact absurd h ih
      | cons a t => simp

theorem lookup_insertReplace {α : Type} (es : List (String × α)) (s : String) (v : α) :
    lookupAssoc (insertReplace es s v) s = some v := by
  induction es with
  | nil => simp [insertReplace, lookupAssoc]
  | cons p rest ih =>
    obtain ⟨k, w⟩ := p
    by_cases hk : k = s
    · simp [insertReplace, hk, lookupAssoc]
    · simp [insertReplace, hk, lookupAssoc, ih]

theorem get?_set_self : ∀ (xs : List Value) (i : Nat) (c : Value),
    i < xs.length → (xs.set i c).get? i = some c := by
  intro xs
  induction xs with
  | nil => intro i c h; simp at h
  | cons x xs ih =>
    intro i c h
    cases i with
    | zero => rfl
    | succ j => simpa using ih j c (by simpa using h)

theorem seqGet_set (xs : List Value) (n : Int) (child c : Value)
    (h : seqGet xs n = .ok child) :
    seqGet (xs.set (pyIdx xs.length n).toNat c) n = .ok c := by
  by_cases hcond : 0 ≤ pyIdx xs.length n ∧ pyIdx xs.length n < (xs.length : Int)
  · have hlen : (xs.set (pyIdx xs.length n).toNat c).length = xs.length :=
      List.length_set xs _ c
    have hlt : (pyIdx xs.length n).toNat < xs.length := by omega
    unfold seqGet
    rw [hlen, if_pos hcond, get?_set_self _ _ _ hlt]
  · unfold seqGet at h
    rw [if_neg hcond] at h
    exact absurd h (by simp)

theorem isSeq_updateItem (ptr : Value) (pk : PyKey) (c : Value) :
    isSeq (updateItem ptr pk c) = isSeq ptr := by
  cases ptr <;> cases pk <;> rfl

theorem getitem_coerce_update (store child c : Value) (k : String)
    (hget : getitem store (coerceIfSeq store (.kstr k)) = .ok child) :
    getitem (updateItem store (coerceIfSeq store (.kstr k)) c)
        (coerceIfSeq store (.kstr k)) = .ok c := by
  cases store with
  | vdict es =>
    simp [coerceIfSeq, isSeq, updateItem, getitem, lookup_insertReplace]
  | vlist xs =>
    simp only [coerceIfSeq, isSeq, if_true, toIntKey] at hget ⊢
    cases hparse : parseIntChars k.toList with
    | none => rw [hparse] at hget; simp [getitem] at hget
    | some n => rw [hparse] at hget; exact seqGet_set xs n child c hget
  | vtuple xs =>
    simp only [coerceIfSeq, isSeq, if_true, toIntKey] at hget ⊢
    cases hparse : parseIntChars k.toList with
    | none => rw [hparse] at hget; simp [getitem] at hget
    | some n => rw [hparse] at hget; exact seqGet_set xs n child c hget
  | vstr s => simp [coerceIfSeq, isSeq, getitem] at hget
  | vnone => simp [coerceIfSeq, isSeq, getitem] at hget
  | vint m => simp [coerceIfSeq, isSeq, getitem] at hget

theorem setFan_vnone_err (sks : List (List Char)) (v : Value) (hne : sks ≠ []) :
    ∃ e, setFan .vnone sks v = .error e := by
  cases v with
  | vlist xs =>
    by_cases hl : sks.length = xs.length
    · cases sks with
      | nil => exact absurd rfl hne
      | cons s ss =>
        cases xs with
        | nil => simp at hl
        | cons x xs' =>
          exact ⟨.typeError "NoneType does not support item assignment",
            by simp [setFan, hl, List.zip, setPairs, setItem, Except.map]⟩
    · exact ⟨.valueError "Not same number of same-level keys and values.",
        by simp [setFan, hl]⟩
  | vtuple xs =>
    by_cases hl : sks.length = xs.length
    · cases sks with
      | nil => exact absurd rfl hne
      | cons s ss =>
        cases xs with
        | nil => simp at hl
        | cons x xs' =>
          exact ⟨.typeError "NoneType does not support item assignment",
            by simp [setFan, hl, List.zip, setPairs, setItem, Except.map]⟩
    · exact ⟨.valueError "Not same number of same-level keys and values.",
        by simp [setFan, hl]⟩
  | vnone =>
    exact ⟨.typeError "Found a many-keys delimiter with a not iterable value.",
      by simp [setFan]⟩
  | vint n =>
    exact ⟨.typeError "Found a many-keys delimiter with a not iterable value.",
      by simp [setFan]⟩
  | vstr s =>
    exact ⟨.typeError "Found a many-keys delimiter with a not iterable value.",
      by simp [setFan]⟩
  | vdict es =>
    exact ⟨.typeError "Found a many-keys delimiter with a not iterable value.",
      by simp [setFan]⟩

theorem setCore_vnone_err (sels : List Pattern) (rn : Bool) (md : Char) (v : Value) :
    ∀ steps : List (List Char), steps ≠ [] →
      ∃ e, setCore sels rn md v steps .vnone = .error e := by
  intro steps
  induction steps with
  | nil => intro h; exact absurd rfl h
  | cons key rest ih =>
    intro _
    cases rest with
    | nil =>
      by_cases hm : md ∈ key
      · obtain ⟨e, he⟩ := setFan_vnone_err (splitChar md key) v (splitChar_ne_nil md key)
        exact ⟨e, by simp [setCore, hm, he]⟩
      · exact ⟨.typeError "NoneType does not support item assignment",
          by simp [setCore, hm, setItem, Except.map]⟩
    | cons next rest' =>
      cases hph : phIdx key with
      | some i =>
        cases hget : sels[i]? with
        | none =>
          exact ⟨.indexError "list index out of range",
            by simp [setCore, setResolveKey, hph, hget]⟩
        | some pat =>
          exact ⟨.typeError "NoneType is not iterable",
            by simp [setCore, setResolveKey, hph, hget, indexOfE]⟩
      | none =>
        have hres : setResolveKey sels rn .vnone key
            = .ok (some (.kstr (String.mk key))) := by
          simp [setResolveKey, hph, coerceIfSeq, isSeq]
        cases rn with
        | true =>
          exact ⟨.typeError "NoneType is not subscriptable",
            by simp [setCore, hres, getitem]⟩
        | false =>
          obtain ⟨e, he⟩ := ih (by simp)
          exact ⟨e, by simp [setCore, hres, getitem, he]⟩

theorem setResolveKey_false_ne_none (sels : List Pattern) (ptr : Value)
    (key : List Char) : setResolveKey sels false ptr key ≠ .ok none := by
  intro hcontra
  cases hph : phIdx key with
  | none => simp [setResolveKey, hph] at hcontra
  | some i =>
    cases hget : sels[i]? with
    | none => simp [setResolveKey, hph, hget] at hcontra
    | some pat =>
      cases hidx : indexOfE ptr pat with
      | error e => simp [setResolveKey, hph, hget, hidx] at hcontra
      | ok idx =>
        by_cases hi : idx = -1 <;>
          simp [setResolveKey, hph, hget, hidx, hi] at hcontra

theorem getCore_cons_plain (sels : List Pattern) (rn : Bool) (md : Char)
    (dflt : Option Value) (key : List Char) (rest : List (List Char))
    (value child : Value) (hph : phIdx key = none) (hmem : md ∉ key)
    (hacc : getitem value (coerceIfSeq value (.kstr (String.mk key))) = .ok child) :
    getCore sels rn md dflt (key :: rest) value
      = getCore sels rn md dflt rest child := by
  cases rest with
  | nil => simp [getCore, hph, hmem, access, hacc]
  | cons a t => simp [getCore, hph, hmem, access, hacc]

theorem getCore_vnone_plain (sels : List Pattern) (md : Char) :
    ∀ rest : List (List Char), (∀ s ∈ rest, phIdx s = none ∧ md ∉ s) →
      getCore sels false md none rest .vnone = .ok .vnone := by
  intro rest
  induction rest with
  | nil => intro _; rfl
  | cons s rest' ih =>
    intro hplain
    obtain ⟨hph, hmem⟩ := hplain s (by simp)
    have hrec := ih (fun t ht => hplain t (by simp [ht]))
    simp [getCore, hph, hmem, coerceIfSeq, isSeq, access, getitem, hrec]

theorem findGroupsAux_no_brace : ∀ cs : List Char, '{' ∉ cs →
    findGroupsAux none cs = [] := by
  intro cs
  induction cs with
  | nil => intro _; rfl
  | cons c rest ih =>
    intro h
    have hc : c ≠ '{' := fun hEq => h (hEq ▸ List.mem_cons_self c rest)
    have hrest : '{' ∉ rest := fun hm => h (List.mem_cons_of_mem c hm)
    simp [findGroupsAux, hc, ih hrest]

theorem splitChar_no_delim (d : Char) : ∀ cs : List Char, d ∉ cs →
    splitChar d cs = [cs] := by
  intro cs
  induction cs with
  | nil => intro _; rfl
  | cons c rest ih =>
    intro h
    have hc : c ≠ d := fun hEq => h (hEq ▸ List.mem_cons_self c rest)
    have hrest : d ∉ rest := fun hm => h (List.mem_cons_of_mem c hm)
    simp [splitChar, hc, ih hrest]

theorem phIdx_no_brace (s : List Char) (h : '{' ∉ s) : phIdx s = none := by
  cases s with
  | nil => rfl
  | cons a t =>
    cases t with
    | nil => rfl
    | cons b t2 =>
      cases t2 with
      | nil => rfl
      | cons c t3 =>
        have ha : a ≠ '{' := fun hEq => h (hEq ▸ List.mem_cons_self a _)
        simp [phIdx, ha]

theorem mk_toList (s : String) : String.mk s.toList = s := by
  cases s
  rfl

theorem parsePath_plain (k : String) (nd : Char)
    (h1 : '{' ∉ k.toList) (h2 : nd ∉ k.toList) :
    parsePath k nd = .ok ([k.toList], []) := by
  have hg : findGroups k.data = [] := findGroupsAux_no_brace k.toList h1
  have hs : splitChar nd k.data = [k.data] := splitChar_no_delim nd k.toList h2
  simp [parsePath, hg, hs, substGroups, List.mapM, List.mapM.loop]
  rfl

theorem lookup_eraseEntries : ∀ (cs : List (String × HVal)) (k : String) (w : HVal),
    lookupAssoc cs k = some w →
    lookupAssoc (eraseEntries cs) k = some (erase w) := by
  intro cs
  induction cs with
  | nil => intro k w h; simp [lookupAssoc] at h
  | cons p rest ih =>
    intro k w h
    obtain ⟨s, hv⟩ := p
    by_cases hs : s = k
    · rw [lookupAssoc, if_pos hs] at h
      cases h
      simp [eraseEntries, lookupAssoc, hs]
    · rw [lookupAssoc, if_neg hs] at h
      simp [eraseEntries, lookupAssoc, hs, ih k w h]

theorem eraseChildren_dcopyL : ∀ cs : List (String × HVal),
    (∀ p ∈ cs, ∀ m, erase (dcopy m p.2).1 = erase p.2) →
    ∀ n, eraseChildren (dcopyL n cs).1 = eraseChildren cs := by
  intro cs
  induction cs with
  | nil => intro _ n; rfl
  | cons p rest ih =>
    intro hp n
    obtain ⟨s, h⟩ := p
    simp only [dcopyL, eraseChildren]
    rw [hp (s, h) (by simp) n, ih (fun q hq => hp q (by simp [hq])) (dcopy n h).2]

theorem eraseEntries_dcopyL : ∀ cs : List (String × HVal),
    (∀ p ∈ cs, ∀ m, erase (dcopy m p.2).1 = erase p.2) →
    ∀ n, eraseEntries (dcopyL n cs).1 = eraseEntries cs := by
  intro cs
  induction cs with
  | nil => intro _ n; rfl
  | cons p rest ih =>
    intro hp n
    obtain ⟨s, h⟩ := p
    simp only [dcopyL, eraseEntries]
    rw [hp (s, h) (by simp) n, ih (fun q hq => hp q (by simp [hq])) (dcopy n h).2]

theorem erase_dcopy : ∀ h : HVal, ∀ n : Nat, erase (dcopy n h).1 = erase h := by
  intro h
  induction h using hval_ind with
  | h0 => intro n; rfl
  | h1 m => intro n; rfl
  | h2 s => intro n; rfl
  | h3 i k cs ihcs =>
    intro n
    cases k with
    | nlist =>
      simp only [dcopy, erase]
      rw [eraseChildren_dcopyL cs ihcs (n + 1)]
    | ntuple =>
      simp only [dcopy, erase]
      rw [eraseChildren_dcopyL cs ihcs (n + 1)]
    | ndict =>
      simp only [dcopy, erase]
      rw [eraseEntries_dcopyL cs ihcs (n + 1)]

theorem hidsL_dcopyL_ge : ∀ cs : List (String × HVal),
    (∀ p ∈ cs, ∀ m, (∀ t ∈ hids (dcopy m p.2).1, m ≤ t) ∧ m ≤ (dcopy m p.2).2) →
    ∀ n, (∀ t ∈ hidsL (dcopyL n cs).1, n ≤ t) ∧ n ≤ (dcopyL n cs).2 := by
  intro cs
  induction cs with
  | nil => intro _ n; exact ⟨by simp [dcopyL, hidsL], le_refl n⟩
  | cons p rest ih =>
    intro hp n
    obtain ⟨s, h⟩ := p
    obtain ⟨hh1, hh2⟩ := hp (s, h) (by simp) n
    obtain ⟨hr1, hr2⟩ := ih (fun q hq => hp q (by simp [hq])) (dcopy n h).2
    constructor
    · intro t ht
      simp only [dcopyL, hidsL, List.mem_append] at ht
      rcases ht with ht | ht
      · exact hh1 t ht
      · exact le_trans hh2 (hr1 t ht)
    · exact le_trans hh2 hr2

theorem hids_dcopy_ge : ∀ h : HVal, ∀ n : Nat,
    (∀ t ∈ hids (dcopy n h).1, n ≤ t) ∧ n ≤ (dcopy n h).2 := by
  intro h
  induction h using hval_ind with
  | h0 => intro n; exact ⟨by simp [dcopy, hids], le_refl n⟩
  | h1 m => intro n; exact ⟨by simp [dcopy, hids], le_refl n⟩
  | h2 s => intro n; exact ⟨by simp [dcopy, hids], le_refl n⟩
  | h3 i k cs ihcs =>
    intro n
    obtain ⟨hL1, hL2⟩ := hidsL_dcopyL_ge cs ihcs (n + 1)
    constructor
    · intro t ht
      simp only [dcopy, hids, List.mem_cons] at ht
      rcases ht with rfl | ht
      · exact le_refl t
      · exact le_trans (Nat.le_succ n) (hL1 t ht)
    · exact le_trans (Nat.le_succ n) hL2

theorem lookup_dcopyL : ∀ (cs : List (String × HVal)) (n : Nat) (k : String) (w : HVal),
    lookupAssoc cs k = some w →
    ∃ m, n ≤ m ∧ lookupAssoc (dcopyL n cs).1 k = some (dcopy m w).1 := by
  intro cs
  induction cs with
  | nil => intro n k w h; simp [lookupAssoc] at h
  | cons p rest ih =>
    intro n k w h
    obtain ⟨s, hv⟩ := p
    by_cases hs : s = k
    · rw [lookupAssoc, if_pos hs] at h
      cases h
      exact ⟨n, le_refl n, by simp [dcopyL, lookupAssoc, hs]⟩
    · rw [lookupAssoc, if_neg hs] at h
      obtain ⟨m, hm, hl⟩ := ih (dcopy n hv).2 k w h
      exact ⟨m, le_trans (hids_dcopy_ge hv n).2 hm,
        by simp [dcopyL, lookupAssoc, hs, hl]⟩

theorem le_foldr_max : ∀ (l : List Nat) (t : Nat), t ∈ l → t ≤ l.foldr max 0 := by
  intro l
  induction l with
  | nil => intro t ht; simp at ht
  | cons a rest ih =>
    intro t ht
    rcases List.mem_cons.mp ht with rfl | h
    · exact le_max_left t (rest.foldr max 0)
    · exact le_trans (ih t h) (le_max_right a (rest.foldr max 0))

theorem mutAtL_not_mem : ∀ cs : List (String × HVal),
    (∀ p ∈ cs, ∀ (t : Nat) f, t ∉ hids p.2 → mutAt t f p.2 = p.2) →
    ∀ (t : Nat) f, t ∉ hidsL cs → mutAtL t f cs = cs := by
  intro cs
  induction cs with
  | nil => intro _ t f _; rfl
  | cons p rest ih =>
    intro hp t f ht
    obtain ⟨s, h⟩ := p
    simp only [hidsL, List.mem_append] at ht
    push_neg at ht
    simp only [mutAtL]
    rw [hp (s, h) (by simp) t f ht.1,
      ih (fun q hq => hp q (by simp [hq])) t f ht.2]

theorem mutAt_not_mem : ∀ h : HVal, ∀ (t : Nat) f, t ∉ hids h →
    mutAt t f h = h := by
  intro h
  induction h using hval_ind with
  | h0 => intro t f _; rfl
  | h1 n => intro t f _; rfl
  | h2 s => intro t f _; rfl
  | h3 i k cs ihcs =>
    intro t f ht
    simp only [hids, List.mem_cons] at ht
    push_neg at ht
    simp only [mutAt]
    rw [mutAtL_not_mem cs ihcs t f ht.2, if_neg (fun hEq => ht.1 hEq.symm)]

/-! ## Theorems -/

/-- Claim C1 (code bug): at a selector step whose selector matches no
element of the current sequence, the source inverts its own documented
raise policy (lines 334-337 and 383-386: `if raise_none: return None else:
raise KeyError`). With raise-on-missing enabled and no default, `get`
returns `None` instead of raising; with it disabled, `get` raises `KeyError`
instead of resolving to `None`; a supplied default is ignored. `set` behaves
the same on its pointer walk: silent no-op when raising was requested,
`KeyError` when it was not. The store is `{t: [{a: 1}]}` and the path
`t:{a:2}:x`, whose selector matches nothing. -/
theorem c1_selector_miss_policy_inverted :
    (sdGet (.vdict [("t", .vlist [.vdict [("a", .vint 1)]])]) true true ':' '/'
        (some "t:{a:2}:x") none = .ok .vnone) ∧
    (sdGet (.vdict [("t", .vlist [.vdict [("a", .vint 1)]])]) true false ':' '/'
        (some "t:{a:2}:x") none = .error (.keyError "No match for pattern")) ∧
    (sdGet (.vdict [("t", .vlist [.vdict [("a", .vint 1)]])]) true true ':' '/'
        (some "t:{a:2}:x") (some (.vint 7)) = .ok .vnone) ∧
    (sdSet (.vdict [("t", .vlist [.vdict [("a", .vint 1)]])]) true ':' '/'
        "t:{a:2}:x" (.vint 5)
      = (.ok (), .vdict [("t", .vlist [.vdict [("a", .vint 1)]])])) ∧
    (sdSet (.vdict [("t", .vlist [.vdict [("a", .vint 1)]])]) false ':' '/'
        "t:{a:2}:x" (.vint 5)
      = (.error (.keyError "No match for pattern"),
         .vdict [("t", .vlist [.vdict [("a", .vint 1)]])])) :=
  ⟨rfl, rfl, rfl, rfl, rfl⟩

/-- Claim C2 counterexample: a `set` whose pointer walk fails with
raise-on-missing disabled is not an absence-returning no-op. On the empty
store with path `a:b`, the walk turns the pointer into `None` and the final
assignment `None[b] = 1` raises an uncaught `TypeError`; the container is
indeed left unmodified, but the call raises instead of returning. -/
theorem c2_counterexample :
    sdSet (.vdict []) false ':' '/' "a:b" (.vint 1)
      = (.error (.typeError "NoneType does not support item assignment"),
         .vdict []) :=
  rfl

/-- Claim C3 counterexample: the round-trip law fails on a selector path
whose write destroys its own selector match. On `{tables: [{name: x, v:
1}]}`, `set("tables:{name:x}:name", y)` resolves the selector, writes `y`
over the matched field and succeeds; the following
`get("tables:{name:x}:name")` no longer finds a match and yields `None`
(with raise-on-missing enabled, through the inverted branch of lines
334-337) or raises `KeyError` (with it disabled) - in neither case the
written value `y`. -/
theorem c3_counterexample :
    (sdSet (.vdict [("tables", .vlist [.vdict [("name", .vstr "x"), ("v", .vint 1)]])])
        true ':' '/' "tables:{name:x}:name" (.vstr "y")
      = (.ok (),
         .vdict [("tables", .vlist [.vdict [("name", .vstr "y"), ("v", .vint 1)]])])) ∧
    (sdGet (.vdict [("tables", .vlist [.vdict [("name", .vstr "y"), ("v", .vint 1)]])])
        true true ':' '/' (some "tables:{name:x}:name") none = .ok .vnone) ∧
    (sdGet (.vdict [("tables", .vlist [.vdict [("name", .vstr "y"), ("v", .vint 1)]])])
        true false ':' '/' (some "tables:{name:x}:name") none
      = .error (.keyError "No match for pattern")) ∧
    Value.vnone ≠ Value.vstr "y" :=
  ⟨rfl, rfl, rfl, fun h => Value.noConfusion h⟩

/-- Claim C4 counterexample: a `set` whose final step is a plain key and
whose pointer is a sequence does not coerce the key and does not assign; on
`{xs: [1, 2]}` with path `xs:0`, the final assignment `xs["0"] = 9` raises
`TypeError` (line 402 uses the raw string `last_key`) and the container is
unchanged, where the claim promises the write `xs[0] = 9`. -/
theorem c4_counterexample :
    sdSet (.vdict [("xs", .vlist [.vint 1, .vint 2])]) true ':' '/' "xs:0" (.vint 9)
      = (.error (.typeError "list indices must be integers"),
         .vdict [("xs", .vlist [.vint 1, .vint 2])]) :=
  rfl

/-- Claim C5 counterexample: `set` performs no structural check on non-final
fan-out steps (its walk, lines 377-389, has no counterpart of `get`'s line
338-340 check). On a store that happens to own the literal key `a/b`,
`set("a/b:c", 9)` treats the offending step as a plain key, resolves it and
writes successfully - no failure of any kind is raised. -/
theorem c5_counterexample :
    sdSet (.vdict [("a/b", .vdict [("c", .vint 1)])]) true ':' '/' "a/b:c" (.vint 9)
      = (.ok (), .vdict [("a/b", .vdict [("c", .vint 9)])]) :=
  rfl

/-- Claim C6 counterexample: after a non-final step resolves to NotFound
under the non-raising policy, the remaining steps are still applied. On the
empty store with path `a:b/c` and raise-on-missing disabled, step `a` yields
the absence value `None`, and the final fan-out group is then evaluated on
it, so the call returns the tuple `(None, None)` - not the bare absence
value the claim promises. -/
theorem c6_counterexample :
    (sdGet (.vdict []) true false ':' '/' (some "a:b/c") none
      = .ok (.vtuple [.vnone, .vnone])) ∧
    Value.vtuple [.vnone, .vnone] ≠ Value.vnone :=
  ⟨rfl, fun h => Value.noConfusion h⟩

/-- Claim C7 (code bug): `__copy` line 420 computes `as_copy = as_copy or
self.__as_copy`, so a per-call request for reference mode (`copy=False`)
is overridden whenever the stored option is the default `True`: the value
is deep-copied although the claim (and the method's docstring) promise
aliasing. Reference mode is honoured only when the stored option itself is
`False`. -/
theorem c7_per_call_reference_mode_ignored :
    setEffectiveCopy (some false) true = true ∧
    setEffectiveCopy none false = false ∧
    setEffectiveCopy (some false) false = false :=
  ⟨rfl, rfl, rfl⟩

/-- Claim C8 (confirmed): the single-level access policy of `__access`
(lines 463-509). Whenever plain subscription fails, a supplied default is
returned whatever the raise option says; with no default the failure is
re-raised when raise-on-missing is enabled and the absence value `None` is
returned when it is disabled. -/
theorem c8_single_level_access_policy (c : Value) (k : PyKey) (e : PyErr)
    (hfail : getitem c k = .error e) :
    (∀ (d : Value) (rn : Bool), access c k rn (some d) = .ok d) ∧
    access c k true none = .error e ∧
    access c k false none = .ok .vnone := by
  refine ⟨fun d rn => ?_, ?_, ?_⟩ <;> simp [access, hfail]

/-- Witness for C8 at the concrete failing access `({})["a"]`. -/
theorem c8_witness :
    (∀ (d : Value) (rn : Bool),
        access (.vdict []) (.kstr "a") rn (some d) = .ok d) ∧
    access (.vdict []) (.kstr "a") true none = .error (.keyError "a") ∧
    access (.vdict []) (.kstr "a") false none = .ok .vnone :=
  c8_single_level_access_policy (.vdict []) (.kstr "a") (.keyError "a") rfl

/-- Claim C2 amended: a `set` whose pointer walk (all steps but the last)
hits a resolution failure while raise-on-missing is disabled leaves the
stored container unmodified, but raises an uncaught exception (`TypeError`
at the final assignment on the `None` pointer, or `KeyError` at a selector
miss) instead of returning an absence marker. -/
theorem c2_amended_walk_failure_raises
    (store v : Value) (key : String) (nd md : Char)
    (steps : List (List Char)) (sels : List Pattern)
    (hparse : parsePath key nd = .ok (steps, sels))
    (hfail : walkFails sels false steps store = true) :
    (∃ e, (sdSet store false nd md key v).1 = .error e) ∧
    (sdSet store false nd md key v).2 = store := by
  have hcore : ∃ e, setCore sels false md v steps store = .error e := by
    clear hparse
    induction steps generalizing store with
    | nil => simp [walkFails] at hfail
    | cons k0 rest ih =>
      cases rest with
      | nil => simp [walkFails] at hfail
      | cons next rest' =>
        cases hres : setResolveKey sels false store k0 with
        | error e => exact ⟨e, by simp [setCore, hres]⟩
        | ok opk =>
          cases opk with
          | none => exact absurd hres (setResolveKey_false_ne_none sels store k0)
          | some pk =>
            cases hget : getitem store pk with
            | error e =>
              obtain ⟨e', he'⟩ :=
                setCore_vnone_err sels false md v (next :: rest') (by simp)
              exact ⟨e', by simp [setCore, hres, hget, he']⟩
            | ok child =>
              replace hfail : walkFails sels false (next :: rest') child = true := by
                simpa [walkFails, hres, hget] using hfail
              obtain ⟨e, he⟩ := ih child hfail
              exact ⟨e, by simp [setCore, hres, hget, he]⟩
  obtain ⟨e, he⟩ := hcore
  exact ⟨⟨e, by simp [sdSet, hparse, he]⟩, by simp [sdSet, hparse, he]⟩

/-- Witness for the amended C2 on the empty store with path `a:b`. -/
theorem c2_witness :
    (∃ e, (sdSet (.vdict []) false ':' '/' "a:b" (.vint 1)).1 = .error e) ∧
    (sdSet (.vdict []) false ':' '/' "a:b" (.vint 1)).2 = .vdict [] :=
  c2_amended_walk_failure_raises (.vdict []) (.vint 1) "a:b" ':' '/'
    [['a'], ['b']] [] rfl rfl

/-- Claim C4 amended: in a `set` whose final step is a plain key, a mapping
pointer gets the value assigned directly under the (string) key; a sequence
pointer never has the key coerced, so the assignment raises `TypeError` and
nothing is written. -/
theorem c4_amended_final_assignment (sels : List Pattern) (rn : Bool)
    (es : List (String × Value)) (xs : List Value) (k : List Char) (v : Value)
    (hk : '/' ∉ k) :
    setCore sels rn '/' v [k] (.vdict es)
      = .ok (some (.vdict (insertReplace es (String.mk k) v))) ∧
    setCore sels rn '/' v [k] (.vlist xs)
      = .error (.typeError "list indices must be integers") := by
  constructor <;> simp [setCore, hk, setItem, Except.map]

/-- Witness for the amended C4 at the key `0` on a dict and on a list. -/
theorem c4_witness :
    setCore [] true '/' (.vint 9) [['0']] (.vdict [])
      = .ok (some (.vdict [("0", .vint 9)])) ∧
    setCore [] true '/' (.vint 9) [['0']] (.vlist [.vint 1])
      = .error (.typeError "list indices must be integers") :=
  c4_amended_final_assignment [] true [] [.vint 1] ['0'] (.vint 9) (by decide)

/-- Claim C5 amended: `get` raises the structural `KeyError` whenever the
resolver reaches a non-placeholder step that contains the fan-out delimiter
and is not the final step, for every working value, raise option and
default; `set` has no such check and treats the offending step as a literal
key, and may even write successfully through it. -/
theorem c5_amended_structural_check :
    (∀ (value : Value) (sels : List Pattern) (rn : Bool) (dflt : Option Value)
        (key : List Char) (rest : List (List Char)),
        '/' ∈ key → phIdx key = none → rest ≠ [] →
        getCore sels rn '/' dflt (key :: rest) value
          = .error (.keyError "Found a many-keys delimiter before end level.")) ∧
    sdSet (.vdict [("a/b", .vdict [("c", .vint 1)])]) false ':' '/' "a/b:c" (.vint 9)
      = (.ok (), .vdict [("a/b", .vdict [("c", .vint 9)])]) := by
  constructor
  · intro value sels rn dflt key rest hmem hph hne
    have hemp : rest.isEmpty = false := by
      cases rest with
      | nil => exact absurd rfl hne
      | cons a t => rfl
    simp [getCore, hph, hmem, hemp]
  · rfl

/-- Witness for the amended C5: the structural error on the empty store. -/
theorem c5_witness :
    getCore [] true '/' none [['a', '/', 'b'], ['c']] (.vdict [])
      = .error (.keyError "Found a many-keys delimiter before end level.") :=
  c5_amended_structural_check.1 (.vdict []) [] true none ['a', '/', 'b'] [['c']]
    (by decide) (by decide) (by simp)

/-- Claim C6 amended: when a non-final `get` step fails under the
non-raising no-default policy, the walk continues with the absence value
`None` as the working value; plain remaining steps each fail on `None` and
the call still returns `None`, but a final fan-out group is evaluated on the
absence value and yields a tuple of per-subkey results instead of the bare
absence value. -/
theorem c6_amended_walk_continues :
    (∀ (store : Value) (sels : List Pattern) (md : Char) (key : List Char)
        (rest : List (List Char)) (e : PyErr),
        phIdx key = none → md ∉ key →
        getitem store (coerceIfSeq store (.kstr (String.mk key))) = .error e →
        (∀ s ∈ rest, phIdx s = none ∧ md ∉ s) →
        getCore sels false md none (key :: rest) store = .ok .vnone) ∧
    sdGet (.vdict []) true false ':' '/' (some "a:b/c") none
      = .ok (.vtuple [.vnone, .vnone]) := by
  constructor
  · intro store sels md key rest e hph hmem hfail hplain
    have hrec := getCore_vnone_plain sels md rest hplain
    simp [getCore, hph, hmem, access, hfail, hrec]
  · rfl

/-- Witness for the amended C6 on the empty store with steps `a`, `b`. -/
theorem c6_witness :
    getCore [] false '/' none [['a'], ['b']] (.vdict []) = .ok .vnone :=
  c6_amended_walk_continues.1 (.vdict []) [] '/' ['a'] [['b']]
    (.keyError "a") (by decide) (by decide) rfl (by decide)

/-- Claim C3 amended: the round-trip law holds for selector-free plain
paths: whenever a `set` along steps that are neither placeholders nor
fan-out groups succeeds in writing, a `get` along the same steps on the
resulting container returns exactly the written value, for every raise
option and default. (A selector path need not round-trip, as the
counterexample shows.) -/
theorem c3_amended_roundtrip :
    ∀ (steps : List (List Char)) (store store' v : Value) (sels : List Pattern)
      (rn : Bool) (dflt : Option Value) (md : Char),
      (∀ s ∈ steps, phIdx s = none ∧ md ∉ s) →
      setCore sels rn md v steps store = .ok (some store') →
      getCore sels rn md dflt steps store' = .ok v := by
  intro steps
  induction steps with
  | nil =>
    intro store store' v sels rn dflt md _ hset
    simp [setCore] at hset
  | cons k0 rest ih =>
    intro store store' v sels rn dflt md hplain hset
    obtain ⟨hph, hmem⟩ := hplain k0 (by simp)
    cases rest with
    | nil =>
      simp only [setCore] at hset
      rw [if_neg hmem] at hset
      cases store with
      | vdict es =>
        simp only [setItem, Except.map, Except.ok.injEq, Option.some.injEq] at hset
        subst hset
        simp [getCore, hph, hmem, coerceIfSeq, isSeq, access, getitem,
          lookup_insertReplace]
      | vnone => simp [setItem, Except.map] at hset
      | vint n => simp [setItem, Except.map] at hset
      | vstr s => simp [setItem, Except.map] at hset
      | vlist xs => simp [setItem, Except.map] at hset
      | vtuple xs => simp [setItem, Except.map] at hset
    | cons k1 rest' =>
      have hres : setResolveKey sels rn store k0
          = .ok (some (coerceIfSeq store (.kstr (String.mk k0)))) := by
        simp [setResolveKey, hph]
      simp only [setCore, hres] at hset
      cases hget : getitem store (coerceIfSeq store (.kstr (String.mk k0))) with
      | error e =>
        simp only [hget] at hset
        cases rn with
        | true => simp at hset
        | false =>
          obtain ⟨e', he'⟩ := setCore_vnone_err sels false md v (k1 :: rest') (by simp)
          simp [he'] at hset
      | ok child =>
        simp only [hget] at hset
        cases hrec : setCore sels rn md v (k1 :: rest') child with
        | error e => simp [hrec] at hset
        | ok oc =>
          cases oc with
          | none => simp [hrec] at hset
          | some child' =>
            simp only [hrec, Except.ok.injEq, Option.some.injEq] at hset
            subst hset
            have hplain' : ∀ s ∈ k1 :: rest', phIdx s = none ∧ md ∉ s :=
              fun s hs => hplain s (by simp [hs])
            have ihres := ih child child' v sels rn dflt md hplain' hrec
            have hget' := getitem_coerce_update store child child' (String.mk k0) hget
            have hseqe :
                coerceIfSeq
                    (updateItem store (coerceIfSeq store (.kstr (String.mk k0))) child')
                    (.kstr (String.mk k0))
                  = coerceIfSeq store (.kstr (String.mk k0)) := by
              unfold coerceIfSeq
              rw [isSeq_updateItem]
            rw [getCore_cons_plain sels rn md dflt k0 (k1 :: rest') _ child' hph hmem
              (by rw [hseqe]; exact hget')]
            exact ihres

/-- Witness for the amended C3: write 7 at `a:b` on `{a: {b: 0}}`, read it
back. -/
theorem c3_witness :
    getCore [] true '/' none [['a'], ['b']]
      (.vdict [("a", .vdict [("b", .vint 7)])]) = .ok (.vint 7) :=
  c3_amended_roundtrip [['a'], ['b']] (.vdict [("a", .vdict [("b", .vint 0)])])
    (.vdict [("a", .vdict [("b", .vint 7)])]) (.vint 7) [] true none '/'
    (by decide) rfl

/-- Claim C9 (confirmed): for every stored dict (heap value with entries
`cs`) and plain key `k` present in it with value `w`, `get(k)` returns a
value structurally equal to the stored `C[k]`, for every copy mode, raise
option and default. With copy mode on, the value handed out is looked up
inside a `deepcopy` allocated above every stored identity, so every
identity of the returned value is fresh: mutating the returned value
through any of its identities leaves the store untouched, and a subsequent
`get(k)` still returns the same value. -/
theorem c9_plain_key_get_copy_independent
    (i : Nat) (cs : List (String × HVal)) (k : String) (w : HVal)
    (hk : '{' ∉ k.toList ∧ ':' ∉ k.toList ∧ '/' ∉ k.toList)
    (hfound : lookupAssoc cs k = some w) :
    (∀ (asCopy rn : Bool) (dflt : Option Value),
        sdGet (erase (.hnode i .ndict cs)) asCopy rn ':' '/' (some k) dflt
          = .ok (erase w)) ∧
    (∃ r, getCopyPlain (.hnode i .ndict cs) k = some r ∧
        erase r = erase w ∧
        ∀ (t : Nat) (f : List (String × HVal) → List (String × HVal)),
          t ∈ hids r →
          mutAt t f (.hnode i .ndict cs) = .hnode i .ndict cs ∧
          ∀ (rn : Bool) (dflt : Option Value),
            sdGet (erase (mutAt t f (.hnode i .ndict cs))) true rn ':' '/'
              (some k) dflt = .ok (erase w)) := by
  have hparse := parsePath_plain k ':' hk.1 hk.2.1
  have hph := phIdx_no_brace k.toList hk.1
  have hacc : getitem (Value.vdict (eraseEntries cs)) (.kstr k) = .ok (erase w) := by
    simp [getitem, lookup_eraseEntries cs k w hfound]
  have hpart1 : ∀ (asCopy rn : Bool) (dflt : Option Value),
      sdGet (erase (.hnode i .ndict cs)) asCopy rn ':' '/' (some k) dflt
        = .ok (erase w) := by
    intro asCopy rn dflt
    have hstore : erase (HVal.hnode i .ndict cs) = .vdict (eraseEntries cs) := rfl
    rw [hstore]
    simp only [sdGet, hparse]
    have hph' : phIdx k.data = none := hph
    have hk3 : '/' ∉ k.data := hk.2.2
    simp [getCore, hph', hk3, coerceIfSeq, isSeq, mk_toList, access, hacc]
  refine ⟨hpart1, ?_⟩
  -- the deep copy: fresh identities above the store
  obtain ⟨m, hm, hl⟩ :=
    lookup_dcopyL cs (maxId (HVal.hnode i .ndict cs) + 1 + 1) k w hfound
  refine ⟨(dcopy m w).1, ?_, erase_dcopy w m, ?_⟩
  · simp [getCopyPlain, dcopy, hl]
  · intro t f ht
    have htm : m ≤ t := (hids_dcopy_ge w m).1 t ht
    have htS : t ∉ hids (HVal.hnode i .ndict cs) := by
      intro hmem
      have hbound : t ≤ maxId (HVal.hnode i .ndict cs) := le_foldr_max _ t hmem
      omega
    have hmut : mutAt t f (.hnode i .ndict cs) = .hnode i .ndict cs :=
      mutAt_not_mem (.hnode i .ndict cs) t f htS
    exact ⟨hmut, fun rn dflt => by rw [hmut]; exact hpart1 true rn dflt⟩

/-- Witness for C9 at the store `{a: 3}` and key `a`. -/
theorem c9_witness :
    (∀ (asCopy rn : Bool) (dflt : Option Value),
        sdGet (erase (.hnode 0 .ndict [("a", .hint 3)])) asCopy rn ':' '/'
          (some "a") dflt = .ok (erase (.hint 3))) ∧
    (∃ r, getCopyPlain (.hnode 0 .ndict [("a", .hint 3)]) "a" = some r ∧
        erase r = erase (.hint 3) ∧
        ∀ (t : Nat) (f : List (String × HVal) → List (String × HVal)),
          t ∈ hids r →
          mutAt t f (.hnode 0 .ndict [("a", .hint 3)])
            = .hnode 0 .ndict [("a", .hint 3)] ∧
          ∀ (rn : Bool) (dflt : Option Value),
            sdGet (erase (mutAt t f (.hnode 0 .ndict [("a", .hint 3)]))) true rn
              ':' '/' (some "a") dflt = .ok (erase (.hint 3))) :=
  c9_plain_key_get_copy_independent 0 [("a", .hint 3)] "a" (.hint 3)
    (by decide) rfl

/-- Claim C10 (confirmed): in a final fan-out step the subkeys are passed to
`__access` verbatim (line 343), never index-coerced, so fanning out over any
sequence with digit-string subkeys goes through the single-level failure
policy per subkey - default, raise, or `None` - instead of returning the
elements. Stated for every stored list `xs` under key `xs` with the path
`xs:0/1`. -/
theorem c10_fanout_subkeys_verbatim (xs : List Value) (d : Value) :
    (sdGet (.vdict [("xs", .vlist xs)]) true true ':' '/' (some "xs:0/1") (some d)
      = .ok (.vtuple [d, d])) ∧
    (sdGet (.vdict [("xs", .vlist xs)]) true false ':' '/' (some "xs:0/1") none
      = .ok (.vtuple [.vnone, .vnone])) ∧
    (sdGet (.vdict [("xs", .vlist xs)]) true true ':' '/' (some "xs:0/1") none
      = .error (.typeError "list indices must be integers")) :=
  ⟨rfl, rfl, rfl⟩

end SmartDict
